import Mathlib

/-!
Verification of FRion (`FRion/correct.py`): ionospheric Faraday-rotation
correction of Stokes Q/U image cubes.

The numpy arrays of the program are embedded shallowly as a shape (list of
dimension sizes, numpy/C axis order) together with a total indexing function
from multi-indices to values; two arrays are observationally equal when their
shapes agree and their indexing functions agree on every index tuple of the
right rank.  Floating-point cell values are modelled as exact rationals
extended with signed infinities and NaN (`FVal`), so that division by a zero
modulation can be observed without clamping.  The filesystem touched by
`pf.writeto` is a map from path to FITS file content, and each write returns
the updated map together with an optional error.
-/

/-- A cell value of a numpy floating-point array, modelled exactly: a finite
rational, a signed infinity (`true` = negative), or NaN. -/
inductive FVal where
  | fin : ℚ → FVal
  | inf : Bool → FVal
  | nan : FVal
deriving DecidableEq, Repr

/-- Holds (`true`) iff the value is an infinity or NaN. -/
def FVal.nonfinite : FVal → Bool
  | FVal.fin _ => false
  | _ => true

/-- An N-dimensional array: a shape (numpy axis order) and a total indexing
function on multi-indices (index tuples are lists, axis 0 first). -/
structure NDArray (α : Type) where
  shape : List Nat
  data : List Nat → α

/-- Observational equality of arrays: equal shapes and equal entries at every
index tuple of matching rank (this is what `==` means for numpy arrays). -/
def NDArray.equiv {α : Type} (A B : NDArray α) : Prop :=
  A.shape = B.shape ∧ ∀ idx : List Nat, idx.length = A.shape.length → A.data idx = B.data idx

/-- Holds (`true`) iff `idx` is a valid index tuple for `shape`: same rank and each
component strictly below the corresponding dimension. -/
def validIdx : List Nat → List Nat → Bool
  | [], [] => true
  | s :: ss, i :: is => decide (i < s) && validIdx ss is
  | _, _ => false

/-- Move the element at position `src` of a list to position `dst`
(`np.moveaxis` acts like this on both the shape and the index tuples).
When `src` is out of range the list is returned unchanged. -/
def moveIdx {α : Type} (src dst : Nat) (l : List α) : List α :=
  match l[src]? with
  | none => l
  | some x => (l.eraseIdx src).insertIdx dst x

/-- Shallow embedding of `np.moveaxis(A, src, dst)` for a single axis: the
shape is permuted by `moveIdx src dst`, and an entry of the result at index
`j` is the entry of `A` at the inversely permuted index `moveIdx dst src j`. -/
def moveaxis {α : Type} (A : NDArray α) (src dst : Nat) : NDArray α :=
  { shape := moveIdx src dst A.shape
  , data := fun j => A.data (moveIdx dst src j) }

/-- Embeds `readData` lines 123-125: if the detected FITS frequency axis `ax`
is neither 0 (not found) nor `N` (already first in numpy order), move numpy
axis `N - ax` to axis 0; otherwise leave the array untouched. -/
def to_canonical {α : Type} (A : NDArray α) (ax N : Nat) : NDArray α :=
  if ax ≠ 0 ∧ ax ≠ N then moveaxis A (N - ax) 0 else A

/-- Embeds `write_corrected_cubes` lines 150-152: if the detected frequency
axis `ax` is nonzero, move numpy axis 0 back to axis `N - ax`. -/
def to_native {α : Type} (A : NDArray α) (ax N : Nat) : NDArray α :=
  if ax ≠ 0 then moveaxis A 0 (N - ax) else A

lemma insertIdx_get_eraseIdx {α : Type} :
    ∀ (l : List α) (n : Nat) (h : n < l.length),
      (l.eraseIdx n).insertIdx n (l.get ⟨n, h⟩) = l := by
  intro l
  induction l with
  | nil => intro n h; simp at h
  | cons a as ih =>
      intro n h
      cases n with
      | zero => simp [List.eraseIdx]
      | succ m =>
          simp only [List.length_cons, Nat.succ_lt_succ_iff] at h
          have hm := ih m h
          simp only [List.get_eq_getElem] at hm
          simp [List.eraseIdx, hm]

lemma moveIdx_zero_zero {α : Type} (l : List α) : moveIdx 0 0 l = l := by
  cases l with
  | nil => rfl
  | cons a as => simp [moveIdx]

lemma moveIdx_cancel {α : Type} (l : List α) (s : Nat) (h : s < l.length) :
    moveIdx 0 s (moveIdx s 0 l) = l := by
  have hget : l[s]? = some l[s] := List.getElem?_eq_getElem h
  have h1 : moveIdx s 0 l = l[s] :: l.eraseIdx s := by
    simp [moveIdx, hget]
  rw [h1]
  simp only [moveIdx, List.getElem?_cons_zero, List.eraseIdx]
  exact insertIdx_get_eraseIdx l s h

lemma moveIdx_length {α : Type} (l : List α) (s : Nat) (h : s < l.length) :
    (moveIdx s 0 l).length = l.length := by
  have hget : l[s]? = some l[s] := List.getElem?_eq_getElem h
  simp only [moveIdx, hget]
  rw [List.insertIdx_zero, List.length_cons, List.length_eraseIdx]
  simp [h]
  omega

lemma equiv_refl {α : Type} (A : NDArray α) : NDArray.equiv A A :=
  ⟨rfl, fun _ _ => rfl⟩

lemma moveaxis_round {α : Type} (A : NDArray α) (s : Nat) (h : s < A.shape.length) :
    NDArray.equiv (moveaxis (moveaxis A s 0) 0 s) A := by
  have hshape : (moveaxis (moveaxis A s 0) 0 s).shape = A.shape := by
    simp only [moveaxis]
    exact moveIdx_cancel A.shape s h
  refine ⟨hshape, ?_⟩
  intro idx hlen
  rw [hshape] at hlen
  simp only [moveaxis]
  rw [moveIdx_cancel idx s (by omega)]

lemma moveaxis_zero_zero {α : Type} (A : NDArray α) :
    NDArray.equiv (moveaxis A 0 0) A := by
  refine ⟨?_, ?_⟩
  · simp only [moveaxis]
    exact moveIdx_zero_zero A.shape
  · intro idx _
    simp only [moveaxis]
    rw [moveIdx_zero_zero idx]

/-- CLAIM C1 property: `to_native (to_canonical A ax N) ax N` is observationally
equal to `A`. -/
def roundTripHolds {α : Type} (A : NDArray α) (ax N : Nat) : Prop :=
  NDArray.equiv (to_native (to_canonical A ax N) ax N) A

/-- C1: Axis-order round trip: for every array of rank `N` and every detected
frequency-axis index `ax ≤ N` (including `ax = 0`, where both directions are
identities, and `ax = N`, where normalization skips the move and restoration
performs the vacuous move of axis 0 to position 0), restoring the native
layout after normalizing to the canonical layout reproduces the array. -/
theorem axis_order_round_trip {α : Type} (A : NDArray α) (ax N : Nat)
    (hrank : A.shape.length = N) (hax : ax ≤ N) : roundTripHolds A ax N := by
  unfold roundTripHolds
  by_cases h0 : ax = 0
  · rw [to_canonical, if_neg (by simp [h0]), to_native, if_neg (by simp [h0])]
    exact equiv_refl A
  · by_cases hN : ax = N
    · -- normalization is skipped; restoration moves axis 0 to position N - N = 0
      have hsub : N - ax = 0 := by omega
      rw [to_canonical, if_neg (by simp [hN]), to_native, if_pos h0, hsub]
      exact moveaxis_zero_zero A
    · -- the interesting case: 0 < ax < N, a genuine moveaxis both ways
      rw [to_canonical, if_pos ⟨h0, hN⟩, to_native, if_pos h0]
      exact moveaxis_round A (N - ax) (by omega)

/-- A concrete rank-3 cube used as the round-trip witness input. -/
def sampleCube : NDArray Nat :=
  { shape := [2, 3, 4], data := fun idx => idx.sum }

/-- Witness for C1 at a concrete input: rank 3, detected axis 2. -/
theorem axis_order_round_trip_witness :
    (sampleCube.shape.length = 3 ∧ 2 ≤ 3) ∧ roundTripHolds sampleCube 2 3 :=
  ⟨⟨rfl, by decide⟩, axis_order_round_trip sampleCube 2 3 rfl (by decide)⟩

/-- Holds (`true`) iff `pat` occurs at the front of `l`. -/
def prefHere : List Char → List Char → Bool
  | _, [] => true
  | [], _ :: _ => false
  | a :: as, b :: bs => (a == b) && prefHere as bs

/-- Holds (`true`) iff `pat` occurs as a contiguous substring of `l`. -/
def containsSub : List Char → List Char → Bool
  | [], pat => pat.isEmpty
  | a :: as, pat => prefHere (a :: as) pat || containsSub as pat

/-- Embedding of the Python substring test `pat in s`. -/
def strContains (s pat : String) : Bool := containsSub s.toList pat.toList

/-- The FITS header as the program reads it: a declared axis count `NAXIS`,
the per-axis type labels `CTYPE1..` (`none` models an absent key, whose
lookup raises and is swallowed by the bare `except`), and the HISTORY log. -/
structure Header where
  naxis : Nat
  ctype : Nat → Option String
  history : List String

/-- The body of the `find_freq_axis` loop for axis `i`: overwrite the
accumulator with `i` when the upper-cased label of axis `i` contains
`"FREQ"`; keep it when it does not or when the label is absent. -/
def scanStep (h : Header) (acc i : Nat) : Nat :=
  match h.ctype i with
  | some s => if strContains s.toUpper "FREQ" then i else acc
  | none => acc

/-- Embeds `find_freq_axis` (lines 85-96): starting from the sentinel 0,
scan FITS axes 1..NAXIS in order, overwriting the result at each match. -/
def find_freq_axis (h : Header) : Nat :=
  (List.range' 1 h.naxis).foldl (scanStep h) 0

/-- Holds (`true`) iff axis `i` has a label and that label, upper-cased, contains
the substring `"FREQ"`. -/
def axisMatches (h : Header) (i : Nat) : Bool :=
  match h.ctype i with
  | some s => strContains s.toUpper "FREQ"
  | none => false

lemma scanStep_eq (h : Header) (acc i : Nat) :
    scanStep h acc i = if axisMatches h i then i else acc := by
  cases hc : h.ctype i <;> simp [scanStep, axisMatches, hc]

lemma foldl_scan (h : Header) :
    ∀ (n s acc : Nat),
      ((List.range' s n).foldl (scanStep h) acc = acc
        ∧ ∀ i, s ≤ i → i < s + n → axisMatches h i = false)
    ∨ (axisMatches h ((List.range' s n).foldl (scanStep h) acc) = true
        ∧ s ≤ (List.range' s n).foldl (scanStep h) acc
        ∧ (List.range' s n).foldl (scanStep h) acc < s + n
        ∧ ∀ j, (List.range' s n).foldl (scanStep h) acc < j → j < s + n →
            axisMatches h j = false) := by
  intro n
  induction n with
  | zero =>
      intro s acc
      left
      refine ⟨rfl, ?_⟩
      intro i h1 h2
      omega
  | succ m ih =>
      intro s acc
      rw [List.range'_succ, List.foldl_cons]
      rcases ih (s + 1) (scanStep h acc s) with ⟨heq, hnone⟩ | ⟨hm, hs, hlt, hafter⟩
      · rw [heq, scanStep_eq]
        by_cases hmatch : axisMatches h s = true
        · right
          rw [if_pos hmatch]
          refine ⟨hmatch, le_refl s, by omega, ?_⟩
          intro j hj1 hj2
          exact hnone j (by omega) (by omega)
        · left
          rw [if_neg hmatch]
          refine ⟨rfl, ?_⟩
          intro i hi1 hi2
          by_cases his : i = s
          · subst his
            exact Bool.eq_false_iff.mpr hmatch
          · exact hnone i (by omega) (by omega)
      · right
        exact ⟨hm, by omega, by omega, fun j hj1 hj2 => hafter j hj1 (by omega)⟩

/-- CLAIM C3 property: either no axis in 1..NAXIS matches and the sentinel 0
is returned, or the returned axis is the highest-indexed matching axis. -/
def freqAxisSpecHolds (h : Header) : Prop :=
  (find_freq_axis h = 0 ∧ ∀ i, 1 ≤ i → i ≤ h.naxis → axisMatches h i = false)
  ∨ (1 ≤ find_freq_axis h ∧ find_freq_axis h ≤ h.naxis
      ∧ axisMatches h (find_freq_axis h) = true
      ∧ ∀ j, find_freq_axis h < j → j ≤ h.naxis → axisMatches h j = false)

/-- C3: `find_freq_axis` scans 1-based axes 1..NAXIS without early exit and
returns the highest-indexed axis whose upper-cased label contains "FREQ",
the sentinel 0 when no axis matches, and treats absent labels (`ctype i =
none`, the swallowed lookup failure) as non-matching. -/
theorem find_freq_axis_last_match (h : Header) : freqAxisSpecHolds h := by
  unfold freqAxisSpecHolds find_freq_axis
  rcases foldl_scan h h.naxis 1 0 with ⟨heq, hnone⟩ | ⟨hm, hs, hlt, hafter⟩
  · left
    refine ⟨heq, ?_⟩
    intro i h1 h2
    exact hnone i h1 (by omega)
  · right
    exact ⟨hs, by omega, hm, fun j hj1 hj2 => hafter j hj1 (by omega)⟩

/-- IEEE result of `a / +0.0` for a finite `a`: NaN when `a = 0`, a signed
infinity otherwise (this is what numpy produces, with a warning, when the
complex denominator is exactly zero: it divides each part by `0.0`). -/
def sdivZero (a : ℚ) : FVal :=
  if a = 0 then FVal.nan else if a < 0 then FVal.inf true else FVal.inf false

/-- Complex division of cell-value pairs `(re, im)` as `np.true_divide`
performs it.  For finite operands with a nonzero denominator the exact
rational quotient formula is used (numpy evaluates an algebraically
equivalent scaled form of the same quotient); for a denominator that is
exactly `0 + 0i` numpy divides each numerator component by `0.0`, giving
infinities and NaNs.  Nonfinite operands cannot arise in this pipeline
(cube and prediction data are finite) and are conservatively sent to NaN. -/
def cdiv : FVal × FVal → FVal × FVal → FVal × FVal
  | (FVal.fin a, FVal.fin b), (FVal.fin c, FVal.fin d) =>
      if c = 0 ∧ d = 0 then (sdivZero a, sdivZero b)
      else (FVal.fin ((a * c + b * d) / (c * c + d * d)),
            FVal.fin ((b * c - a * d) / (c * c + d * d)))
  | _, _ => (FVal.nan, FVal.nan)

/-- numpy pairwise dimension broadcasting: equal sizes broadcast to
themselves, size 1 stretches to the other size, anything else fails. -/
def broadcastDim (a b : Nat) : Option Nat :=
  if a = b then some a else if a = 1 then some b else if b = 1 then some a else none

/-- numpy shape broadcasting for two shapes of equal rank (the only case the
program exercises: `arrshape` is built with the same rank as `Pdata`). -/
def broadcastShapes : List Nat → List Nat → Option (List Nat)
  | [], [] => some []
  | a :: as, b :: bs =>
      match broadcastDim a b, broadcastShapes as bs with
      | some d, some ds => some (d :: ds)
      | _, _ => none
  | _, _ => none

/-- Index transformation of broadcasting: reading a broadcast operand of
shape `shape` at a result index collapses every size-1 axis to index 0. -/
def bcastIdx (shape idx : List Nat) : List Nat :=
  List.zipWith (fun s i => if s = 1 then 0 else i) shape idx

/-- The complex NaN used as the (unreachable) out-of-range default. -/
def cnan : FVal × FVal := (FVal.nan, FVal.nan)

/-- Embeds `correct_cubes` (lines 174-182): form `Pdata = Qdata + 1j*Udata`
(numpy broadcasts the two operands), build `arrshape` as all-1 with entry 0
set to `theta.size` (raising on a 0-d input, modelled as `none`), reshape
`theta` to `arrshape`, broadcast-divide, and split into real and imaginary
parts.  `none` models the exceptions numpy raises (IndexError on rank 0,
broadcast failure in the arithmetic). -/
def correct_cubes (Qdata Udata : NDArray FVal) (theta : List (FVal × FVal)) :
    Option (NDArray FVal × NDArray FVal) :=
  match broadcastShapes Qdata.shape Udata.shape with
  | none => none
  | some pshape =>
    let Pdata : NDArray (FVal × FVal) :=
      { shape := pshape
      , data := fun idx => (Qdata.data (bcastIdx Qdata.shape idx),
                            Udata.data (bcastIdx Udata.shape idx)) }
    match Pdata.shape with
    | [] => none
    | _ :: rest =>
      let arrshape := theta.length :: rest.map (fun _ => 1)
      match broadcastShapes Pdata.shape arrshape with
      | none => none
      | some s =>
        let thetaArr : NDArray (FVal × FVal) :=
          { shape := arrshape, data := fun idx => theta.getD (idx.headD 0) cnan }
        let Pcorr : NDArray (FVal × FVal) :=
          { shape := s
          , data := fun idx => cdiv (Pdata.data (bcastIdx Pdata.shape idx))
                                    (thetaArr.data (bcastIdx arrshape idx)) }
        some ({ shape := s, data := fun idx => (Pcorr.data idx).1 },
              { shape := s, data := fun idx => (Pcorr.data idx).2 })

lemma broadcastDim_self (a : Nat) : broadcastDim a a = some a := by
  simp [broadcastDim]

lemma broadcastDim_one_right (a : Nat) : broadcastDim a 1 = some a := by
  by_cases h : a = 1 <;> simp [broadcastDim, h]

lemma broadcastShapes_self (s : List Nat) : broadcastShapes s s = some s := by
  induction s with
  | nil => rfl
  | cons a as ih => simp [broadcastShapes, broadcastDim_self, ih]

lemma broadcastShapes_ones (s : List Nat) :
    broadcastShapes s (s.map (fun _ => 1)) = some s := by
  induction s with
  | nil => rfl
  | cons a as ih =>
      show broadcastShapes (a :: as) (1 :: as.map (fun _ => 1)) = some (a :: as)
      rw [broadcastShapes, broadcastDim_one_right, ih]

lemma bcastIdx_valid :
    ∀ (shape idx : List Nat), validIdx shape idx = true → bcastIdx shape idx = idx := by
  intro shape
  induction shape with
  | nil =>
      intro idx h
      cases idx with
      | nil => rfl
      | cons i is => simp [validIdx] at h
  | cons s ss ih =>
      intro idx h
      cases idx with
      | nil => simp [validIdx] at h
      | cons i is =>
          simp only [validIdx, Bool.and_eq_true, decide_eq_true_eq] at h
          simp only [bcastIdx, List.zipWith_cons_cons]
          rw [show List.zipWith (fun s i => if s = 1 then 0 else i) ss is = bcastIdx ss is from rfl,
            ih is h.2]
          by_cases hs : s = 1
      
          · subst hs
            have : i = 0 := by omega
            simp [this]
          · simp [hs]

lemma validIdx_cons (c : Nat) (rest idx : List Nat) (h : validIdx (c :: rest) idx = true) :
    ∃ i is, idx = i :: is ∧ i < c ∧ validIdx rest is = true := by
  cases idx with
  | nil => simp [validIdx] at h
  | cons i is =>
      simp only [validIdx, Bool.and_eq_true, decide_eq_true_eq] at h
      exact ⟨i, is, rfl, h.1, h.2⟩

lemma bcast_head (c : Nat) (ones : List Nat) (i : Nat) (is : List Nat) (hi : i < c) :
    (bcastIdx (c :: ones) (i :: is)).headD 0 = i := by
  simp only [bcastIdx, List.zipWith_cons_cons, List.headD_cons]
  by_cases hc : c = 1
  · subst hc
    have hi0 : i = 0 := by omega
    simp [hi0]
  · simp [hc]

lemma correct_cubes_some (Q U : NDArray FVal) (theta : List (FVal × FVal))
    (c : Nat) (rest : List Nat)
    (hQ : Q.shape = c :: rest) (hU : U.shape = Q.shape) (hth : theta.length = c) :
    ∃ Qc Uc, correct_cubes Q U theta = some (Qc, Uc)
      ∧ Qc.shape = Q.shape ∧ Uc.shape = Q.shape
      ∧ ∀ idx, validIdx Q.shape idx = true →
          Qc.data idx = (cdiv (Q.data idx, U.data idx) (theta.getD (idx.headD 0) cnan)).1
          ∧ Uc.data idx = (cdiv (Q.data idx, U.data idx) (theta.getD (idx.headD 0) cnan)).2 := by
  have hbs : broadcastShapes Q.shape U.shape = some (c :: rest) := by
    rw [hU, hQ]
    exact broadcastShapes_self _
  have harr : broadcastShapes (c :: rest) (theta.length :: rest.map (fun _ => 1))
      = some (c :: rest) := by
    rw [hth]
    show broadcastShapes (c :: rest) (c :: rest.map (fun _ => 1)) = some (c :: rest)
    rw [broadcastShapes, broadcastDim_self, broadcastShapes_ones]
  simp only [correct_cubes, hbs, harr]
  refine ⟨_, _, rfl, hQ.symm, hQ.symm, ?_⟩
  intro idx hvalid
  rw [hQ] at hvalid
  obtain ⟨i, is, hidx, hic, hrest⟩ := validIdx_cons c rest idx hvalid
  have hbase : bcastIdx Q.shape idx = idx := by
    rw [hQ]
    exact bcastIdx_valid _ _ hvalid
  have hUbase : bcastIdx U.shape idx = idx := by
    rw [hU, hQ]
    exact bcastIdx_valid _ _ hvalid
  have hhead : (bcastIdx (theta.length :: rest.map (fun _ => 1)) idx).headD 0 = idx.headD 0 := by
    rw [hidx, hth, bcast_head c _ i is hic, List.headD_cons]
  have hcr : bcastIdx (c :: rest) idx = idx := bcastIdx_valid _ _ hvalid
  simp only [hcr, hbase, hUbase, hhead]
  exact ⟨trivial, trivial⟩

/-- CLAIM C2 property: the correction succeeds and every entry of the output
pair is the real resp. imaginary part of `(Q + iU) / theta`, with `theta`
broadcast along axis 0. -/
def elementwiseCorrect (Q U : NDArray FVal) (theta : List (FVal × FVal)) : Prop :=
  ∃ Qc Uc, correct_cubes Q U theta = some (Qc, Uc)
    ∧ ∀ idx, validIdx Q.shape idx = true →
        Qc.data idx = (cdiv (Q.data idx, U.data idx) (theta.getD (idx.headD 0) cnan)).1
        ∧ Uc.data idx = (cdiv (Q.data idx, U.data idx) (theta.getD (idx.headD 0) cnan)).2

/-- C2: elementwise correctness of the correction engine: for same-shape
cubes with frequency on axis 0 and a matching-length theta, `correct_cubes`
forms `P = Q + iU`, divides by theta broadcast along axis 0 (the channel of
an entry is the leading index component), and returns real and imaginary
parts. -/
theorem correct_cubes_elementwise (Q U : NDArray FVal) (theta : List (FVal × FVal))
    (c : Nat) (rest : List Nat)
    (hQ : Q.shape = c :: rest) (hU : U.shape = Q.shape) (hth : theta.length = c) :
    elementwiseCorrect Q U theta := by
  obtain ⟨Qc, Uc, heq, _, _, hdata⟩ := correct_cubes_some Q U theta c rest hQ hU hth
  exact ⟨Qc, Uc, heq, hdata⟩

/-- The worked example of the spec: `Q = [1, 0]` over a 1x1 spatial grid. -/
def cubeQex : NDArray FVal :=
  { shape := [2, 1, 1], data := fun idx => if idx.headD 0 = 0 then FVal.fin 1 else FVal.fin 0 }

/-- The worked example of the spec: `U = [0, 1]` over a 1x1 spatial grid. -/
def cubeUex : NDArray FVal :=
  { shape := [2, 1, 1], data := fun idx => if idx.headD 0 = 0 then FVal.fin 0 else FVal.fin 1 }

/-- The worked example of the spec: `theta = [1 + 0i, 0 + 1i]`. -/
def thetaEx : List (FVal × FVal) := [(FVal.fin 1, FVal.fin 0), (FVal.fin 0, FVal.fin 1)]

/-- Witness for C2 at the concrete example of the spec; the final conjuncts pin
the claimed output values `Qcorr = [1, 1]`, `Ucorr = [0, 0]`. -/
theorem correct_cubes_elementwise_witness :
    (cubeQex.shape = 2 :: [1, 1] ∧ cubeUex.shape = cubeQex.shape ∧ thetaEx.length = 2)
    ∧ elementwiseCorrect cubeQex cubeUex thetaEx
    ∧ cdiv (cubeQex.data [0, 0, 0], cubeUex.data [0, 0, 0]) (thetaEx.getD 0 cnan)
        = (FVal.fin 1, FVal.fin 0)
    ∧ cdiv (cubeQex.data [1, 0, 0], cubeUex.data [1, 0, 0]) (thetaEx.getD 1 cnan)
        = (FVal.fin 1, FVal.fin 0) :=
  ⟨⟨rfl, rfl, rfl⟩,
   correct_cubes_elementwise cubeQex cubeUex thetaEx 2 [1, 1] rfl rfl rfl,
   (by simp [cdiv, cnan, cubeQex, cubeUex, thetaEx]),
   (by simp [cdiv, cnan, cubeQex, cubeUex, thetaEx])⟩

/-- CLAIM C7 property: the correction succeeds and both outputs keep the
input shapes. -/
def shapePreserved (Q U : NDArray FVal) (theta : List (FVal × FVal)) : Prop :=
  ∃ Qc Uc, correct_cubes Q U theta = some (Qc, Uc)
    ∧ Qc.shape = Q.shape ∧ Uc.shape = U.shape

/-- C7: shape preservation: for a valid input (same-shape Q and U, theta of
matching axis-0 length) the arrays returned by `correct_cubes` have exactly
the shape of Q and U. -/
theorem correct_cubes_shape_preserved (Q U : NDArray FVal) (theta : List (FVal × FVal))
    (c : Nat) (rest : List Nat)
    (hQ : Q.shape = c :: rest) (hU : U.shape = Q.shape) (hth : theta.length = c) :
    shapePreserved Q U theta := by
  obtain ⟨Qc, Uc, heq, hsq, hsu, _⟩ := correct_cubes_some Q U theta c rest hQ hU hth
  exact ⟨Qc, Uc, heq, hsq, by rw [hsu, hU]⟩

/-- Witness for C7 at the concrete example of the spec. -/
theorem correct_cubes_shape_preserved_witness :
    (cubeQex.shape = 2 :: [1, 1] ∧ cubeUex.shape = cubeQex.shape ∧ thetaEx.length = 2)
    ∧ shapePreserved cubeQex cubeUex thetaEx :=
  ⟨⟨rfl, rfl, rfl⟩,
   correct_cubes_shape_preserved cubeQex cubeUex thetaEx 2 [1, 1] rfl rfl rfl⟩

lemma sdivZero_nonfinite (a : ℚ) : (sdivZero a).nonfinite = true := by
  unfold sdivZero
  by_cases h : a = 0
  · simp [h, FVal.nonfinite]
  · by_cases h2 : a < 0 <;> simp [h, h2, FVal.nonfinite]

/-- CLAIM C6 property: the correction does not fail, and both output entries
at the probed index are infinite or NaN. -/
def zeroModulationNonfinite (Q U : NDArray FVal) (theta : List (FVal × FVal))
    (idx : List Nat) : Prop :=
  ∃ Qc Uc, correct_cubes Q U theta = some (Qc, Uc)
    ∧ (Qc.data idx).nonfinite = true ∧ (Uc.data idx).nonfinite = true

/-- C6: zero-modulation degeneracy is not an error: when `theta` is exactly
zero at channel `i`, `correct_cubes` still returns a result (no exception),
and the output entries of channel `i` are infinities or NaNs — no clamping
or substitution is applied. -/
theorem correct_cubes_zero_modulation (Q U : NDArray FVal) (theta : List (FVal × FVal))
    (c : Nat) (rest : List Nat) (i : Nat) (idx : List Nat) (a b : ℚ)
    (hQ : Q.shape = c :: rest) (hU : U.shape = Q.shape) (hth : theta.length = c)
    (hvalid : validIdx Q.shape idx = true) (hhead : idx.headD 0 = i)
    (hzero : theta.getD i cnan = (FVal.fin 0, FVal.fin 0))
    (ha : Q.data idx = FVal.fin a) (hb : U.data idx = FVal.fin b) :
    zeroModulationNonfinite Q U theta idx := by
  obtain ⟨Qc, Uc, heq, _, _, hdata⟩ := correct_cubes_some Q U theta c rest hQ hU hth
  obtain ⟨hq, hu⟩ := hdata idx hvalid
  refine ⟨Qc, Uc, heq, ?_, ?_⟩
  · rw [hq, ha, hb, hhead, hzero]
    simp [cdiv, sdivZero_nonfinite]
  · rw [hu, ha, hb, hhead, hzero]
    simp [cdiv, sdivZero_nonfinite]

/-- The worked example with a zero modulation in channel 0. -/
def thetaZeroEx : List (FVal × FVal) := [(FVal.fin 0, FVal.fin 0), (FVal.fin 0, FVal.fin 1)]

/-- Witness for C6: `theta[0] = 0` on the concrete 2-channel cube. -/
theorem correct_cubes_zero_modulation_witness :
    (cubeQex.shape = 2 :: [1, 1] ∧ cubeUex.shape = cubeQex.shape ∧ thetaZeroEx.length = 2
      ∧ validIdx cubeQex.shape [0, 0, 0] = true ∧ ([0, 0, 0] : List Nat).headD 0 = 0
      ∧ thetaZeroEx.getD 0 cnan = (FVal.fin 0, FVal.fin 0)
      ∧ cubeQex.data [0, 0, 0] = FVal.fin 1 ∧ cubeUex.data [0, 0, 0] = FVal.fin 0)
    ∧ zeroModulationNonfinite cubeQex cubeUex thetaZeroEx [0, 0, 0] :=
  ⟨⟨rfl, rfl, rfl, (by decide), rfl, rfl, rfl, rfl⟩,
   correct_cubes_zero_modulation cubeQex cubeUex thetaZeroEx 2 [1, 1] 0 [0, 0, 0] 1 0
     rfl rfl rfl (by decide) rfl rfl rfl rfl⟩

lemma moveIdx_to_front {α : Type} (l : List α) (s : Nat) (h : s < l.length) :
    moveIdx s 0 l = l.get ⟨s, h⟩ :: l.eraseIdx s := by
  have hget : l[s]? = some l[s] := List.getElem?_eq_getElem h
  simp [moveIdx, hget]

lemma moveIdx_from_front {α : Type} (s : Nat) (i0 : α) (rest : List α) :
    moveIdx 0 s (i0 :: rest) = rest.insertIdx s i0 := by
  simp [moveIdx, List.eraseIdx]

/-- CLAIM C9 property: after normalization the frequency axis (native numpy
position `N - ax`) occupies position 0 — its dimension becomes the head of
the shape and an entry at `(i0, rest)` is the native entry with `i0`
re-inserted at the native frequency position — while the remaining axes keep
exactly their relative order (`eraseIdx` deletes one position without
permuting the others). -/
def canonicalLayout {α : Type} (A : NDArray α) (ax N : Nat) : Prop :=
  ((to_canonical A ax N).shape = A.shape.getD (N - ax) 0 :: A.shape.eraseIdx (N - ax))
  ∧ ∀ i0 rest, (i0 :: rest).length = A.shape.length →
      (to_canonical A ax N).data (i0 :: rest) = A.data (rest.insertIdx (N - ax) i0)

/-- C9: canonical-layout invariant of normalization: for every array of rank
`N` and every detected frequency-axis index `1 ≤ ax ≤ N`, normalization puts
the frequency axis at position 0 and preserves the relative order of all
other axes. -/
theorem to_canonical_layout {α : Type} (A : NDArray α) (ax N : Nat)
    (hrank : A.shape.length = N) (hax1 : 1 ≤ ax) (haxN : ax ≤ N) :
    canonicalLayout A ax N := by
  have hlt : N - ax < A.shape.length := by omega
  have hfront : moveIdx (N - ax) 0 A.shape = A.shape.getD (N - ax) 0 :: A.shape.eraseIdx (N - ax) := by
    rw [moveIdx_to_front A.shape (N - ax) hlt, List.getD_eq_getElem A.shape 0 hlt]
    rfl
  by_cases hN : ax = N
  · -- already canonical: the guard skips the move and N - ax = 0
    have hsub : N - ax = 0 := by omega
    rw [canonicalLayout, to_canonical, if_neg (by simp [hN]), hsub]
    constructor
    · rw [hsub] at hfront
      rw [← hfront, moveIdx_zero_zero]
    · intro i0 rest _
      rw [List.insertIdx_zero]
  · -- a genuine move of native axis N - ax to the front
    rw [canonicalLayout, to_canonical, if_pos ⟨by omega, hN⟩]
    constructor
    · simp only [moveaxis]
      exact hfront
    · intro i0 rest _
      simp only [moveaxis]
      rw [moveIdx_from_front]

/-- Witness for C9: the sample rank-3 cube with detected axis 2. -/
theorem to_canonical_layout_witness :
    (sampleCube.shape.length = 3 ∧ 1 ≤ 2 ∧ 2 ≤ 3) ∧ canonicalLayout sampleCube 2 3 :=
  ⟨⟨rfl, (by decide), (by decide)⟩,
   to_canonical_layout sampleCube 2 3 rfl (by decide) (by decide)⟩

/-- One FITS file as the program sees it: an array and a header. -/
structure FitsFile where
  fdata : NDArray FVal
  fheader : Header

/-- The filesystem visible to the program: a map from path to file. -/
structure FS where
  files : String → Option FitsFile

/-- The errors the pipeline can raise (Python raises `Exception`/`OSError`/
`ValueError`; only their identity matters here). -/
inductive PipeErr where
  | shapeMismatch
  | channelMismatch
  | fileExists
  | fileNotFound
  | indexError
  | broadcastError
  | parseError
deriving DecidableEq, Repr

/-- Embeds `header.copy()` followed by `add_history(note)`: the header value
of the caller is untouched; the returned copy has `note` appended to its
HISTORY. -/
def addHistory (h : Header) (note : String) : Header :=
  { h with history := h.history ++ [note] }

/-- Store a file under a path, shadowing any previous file there. -/
def FS.update (fs : FS) (path : String) (f : FitsFile) : FS :=
  { files := fun p => if p = path then some f else fs.files p }

/-- Embeds `pf.writeto(path, data, header, overwrite=ow)`: when the path
already exists and overwriting is not permitted it fails leaving the
filesystem untouched, otherwise it stores the file under the path. -/
def FS.writeto (fs : FS) (path : String) (f : FitsFile) (overwrite : Bool) :
    FS × Option PipeErr :=
  if (fs.files path).isSome ∧ overwrite = false then (fs, some PipeErr.fileExists)
  else (fs.update path f, none)

/-- The HISTORY note added by `write_corrected_cubes`. -/
def histNote : String := "Corrected for ionospheric Faraday rotation using FRion."

/-- Embeds `write_corrected_cubes` (lines 131-156): copy the header and add
the HISTORY note, restore the native axis order of both cubes using the axis
count and frequency axis recomputed from the annotated header, then write
the Q output first and the U output second (the second write is not
attempted when the first fails). -/
def write_corrected_cubes (fs : FS) (Qout Uout : String)
    (Qcorr Ucorr : NDArray FVal) (header : Header) (overwrite : Bool) :
    FS × Option PipeErr :=
  let output_header := addHistory header histNote
  let N := output_header.naxis
  let fax := find_freq_axis output_header
  let Qn := to_native Qcorr fax N
  let Un := to_native Ucorr fax N
  match FS.writeto fs Qout ⟨Qn, output_header⟩ overwrite with
  | (fs1, some e) => (fs1, some e)
  | (fs1, none) => FS.writeto fs1 Uout ⟨Un, output_header⟩ overwrite

/-- Embeds `readData` (lines 99-128): open both cubes, keep only the Q
header, and normalize both arrays to the canonical frequency-first layout
using the axis detected from the Q header; `none` models the exception
raised when a file is missing. -/
def readData (fs : FS) (Qfile Ufile : String) :
    Option (NDArray FVal × NDArray FVal × Header) :=
  match fs.files Qfile, fs.files Ufile with
  | some qf, some uf =>
      some (to_canonical qf.fdata (find_freq_axis qf.fheader) qf.fheader.naxis,
            to_canonical uf.fdata (find_freq_axis qf.fheader) qf.fheader.naxis,
            qf.fheader)
  | _, _ => none

/-- One parsed field of the prediction table: `some q` for a numeric token,
`none` for a non-numeric one. -/
abbrev PredRow := List (Option ℚ)

/-- Modelled from the spec: the per-row contract of the table parse that the
program delegates to the external `np.genfromtxt` call (library code, not
part of this repository).  A row yields a value exactly when it consists of
exactly three numeric fields (frequency, real part, imaginary part). -/
def parseRow : PredRow → Option (ℚ × ℚ × ℚ)
  | [some f, some re, some im] => some (f, re, im)
  | _ => none

/-- Modelled from the spec: row-by-row parsing; any row that does not yield
exactly three numeric fields makes the whole parse fail. -/
def parsePredictionRows : List PredRow → Except PipeErr (List (ℚ × ℚ × ℚ))
  | [] => Except.ok []
  | r :: rs =>
      match parseRow r, parsePredictionRows rs with
      | some v, Except.ok t => Except.ok (v :: t)
      | some _, Except.error e => Except.error e
      | none, _ => Except.error PipeErr.parseError

/-- Modelled from the spec: the whole-table contract of `np.genfromtxt` —
an unreadable source (`none`) or an empty source fails with a parse error,
otherwise the rows are parsed in order. -/
def parsePredictionTable (source : Option (List PredRow)) :
    Except PipeErr (List (ℚ × ℚ × ℚ)) :=
  match source with
  | none => Except.error PipeErr.parseError
  | some rows =>
      if rows.isEmpty then Except.error PipeErr.parseError else parsePredictionRows rows

/-- Embeds `read_prediction` (lines 62-75): parse the table, then return the
frequency column and `theta = real + 1j*imag` as parallel sequences. -/
def read_prediction (source : Option (List PredRow)) :
    Except PipeErr (List ℚ × List (FVal × FVal)) :=
  match parsePredictionTable source with
  | Except.error e => Except.error e
  | Except.ok t =>
      Except.ok (t.map (fun r => r.1), t.map (fun r => (FVal.fin r.2.1, FVal.fin r.2.2)))

/-- Embeds `apply_correction_to_files` (lines 23-58): read the prediction and
both cubes, check Q/U shape agreement and the channel count against the
prediction, then correct and write both outputs.  Every raised exception is
an error value paired with the untouched filesystem. -/
def apply_correction_to_files (fs : FS) (Qfile Ufile : String)
    (predsource : Option (List PredRow)) (Qout Uout : String) (overwrite : Bool) :
    FS × Option PipeErr :=
  match read_prediction predsource with
  | Except.error e => (fs, some e)
  | Except.ok (_freqs, theta) =>
    match readData fs Qfile Ufile with
    | none => (fs, some PipeErr.fileNotFound)
    | some (Qdata, Udata, header) =>
      if Qdata.shape ≠ Udata.shape then (fs, some PipeErr.shapeMismatch)
      else
        match Qdata.shape with
        | [] => (fs, some PipeErr.indexError)
        | c :: _ =>
          if c ≠ theta.length then (fs, some PipeErr.channelMismatch)
          else
            match correct_cubes Qdata Udata theta with
            | none => (fs, some PipeErr.broadcastError)
            | some (Qcorr, Ucorr) =>
                write_corrected_cubes fs Qout Uout Qcorr Ucorr header overwrite

/-- CLAIM C4 property: the run ends in a consistency error (Q/U shape
mismatch or channel-count mismatch) and the filesystem is exactly the input
one — no output artifact was written and the correction never ran. -/
def consistencyGateHolds (fs : FS) (Qfile Ufile : String)
    (predsource : Option (List PredRow)) (Qout Uout : String) (overwrite : Bool) : Prop :=
  (apply_correction_to_files fs Qfile Ufile predsource Qout Uout overwrite).1 = fs
  ∧ ((apply_correction_to_files fs Qfile Ufile predsource Qout Uout overwrite).2
        = some PipeErr.shapeMismatch
      ∨ (apply_correction_to_files fs Qfile Ufile predsource Qout Uout overwrite).2
        = some PipeErr.channelMismatch)

/-- C4: consistency gating: when the loaded Q and U cubes differ in shape,
or the axis-0 channel count of the cube differs from the length of theta,
the orchestrator raises a fatal consistency error with the filesystem
untouched (nothing written, correction engine never invoked). -/
theorem apply_correction_consistency_gate (fs : FS) (Qfile Ufile : String)
    (predsource : Option (List PredRow)) (Qout Uout : String) (overwrite : Bool)
    (freqs : List ℚ) (theta : List (FVal × FVal))
    (Qdata Udata : NDArray FVal) (header : Header)
    (hpred : read_prediction predsource = Except.ok (freqs, theta))
    (hread : readData fs Qfile Ufile = some (Qdata, Udata, header))
    (hbad : Qdata.shape ≠ Udata.shape
      ∨ ∃ c rest, Qdata.shape = c :: rest ∧ c ≠ theta.length) :
    consistencyGateHolds fs Qfile Ufile predsource Qout Uout overwrite := by
  unfold consistencyGateHolds apply_correction_to_files
  simp only [hpred, hread]
  by_cases hsh : Qdata.shape = Udata.shape
  · rcases hbad with hne | ⟨c, rest, hcs, hcne⟩
    · exact absurd hsh hne
    · rw [if_neg (not_not_intro hsh)]
      simp only [hcs]
      rw [if_pos hcne]
      exact ⟨rfl, Or.inr rfl⟩
  · rw [if_pos hsh]
    exact ⟨rfl, Or.inl rfl⟩

/-- A header whose labels are all absent: the frequency axis is undetected
(sentinel 0), so no axis move happens on read or write. -/
def hdrEx : Header := { naxis := 3, ctype := fun _ => none, history := [] }

/-- A U cube whose shape disagrees with `cubeQex`. -/
def cubeUbad : NDArray FVal := { shape := [3, 1, 1], data := fun _ => FVal.fin 0 }

/-- A filesystem holding the sample Q cube and the mismatched U cube. -/
def fsEx : FS :=
  { files := fun p =>
      if p = "Q.fits" then some ⟨cubeQex, hdrEx⟩
      else if p = "U.fits" then some ⟨cubeUbad, hdrEx⟩
      else none }

/-- A well-formed two-row prediction source. -/
def predEx : List PredRow := [[some 1, some 1, some 0], [some 2, some 0, some 1]]

/-- Witness for C4: mismatched Q/U shapes on a concrete filesystem. -/
theorem apply_correction_consistency_gate_witness :
    (read_prediction (some predEx) = Except.ok ([1, 2], thetaEx)
      ∧ readData fsEx "Q.fits" "U.fits" = some (cubeQex, cubeUbad, hdrEx)
      ∧ cubeQex.shape ≠ cubeUbad.shape)
    ∧ consistencyGateHolds fsEx "Q.fits" "U.fits" (some predEx) "Qout.fits" "Uout.fits" false :=
  ⟨⟨rfl, rfl, (by decide)⟩,
   apply_correction_consistency_gate fsEx "Q.fits" "U.fits" (some predEx)
     "Qout.fits" "Uout.fits" false [1, 2] thetaEx cubeQex cubeUbad hdrEx
     rfl rfl (Or.inl (by decide))⟩

lemma writeto_free (fs : FS) (path : String) (f : FitsFile) (ow : Bool)
    (h : fs.files path = none) :
    FS.writeto fs path f ow = (fs.update path f, none) := by
  unfold FS.writeto
  rw [if_neg]
  simp [h]

lemma update_files_ne (fs : FS) (path : String) (f : FitsFile) (p : String)
    (h : p ≠ path) : (fs.update path f).files p = fs.files p := by
  simp [FS.update, h]

lemma update_files_self (fs : FS) (path : String) (f : FitsFile) :
    (fs.update path f).files path = some f := by
  simp [FS.update]

/-- The file written for one corrected cube: the cube restored to native
axis order (using the axis data of the annotated header), paired with the
annotated header. -/
def outFile (corr : NDArray FVal) (header : Header) : FitsFile :=
  ⟨to_native corr (find_freq_axis (addHistory header histNote))
      (addHistory header histNote).naxis,
   addHistory header histNote⟩

lemma wcc_eq (fs : FS) (Qout Uout : String) (Qc Uc : NDArray FVal)
    (header : Header) (ow : Bool) :
    write_corrected_cubes fs Qout Uout Qc Uc header ow =
      match FS.writeto fs Qout (outFile Qc header) ow with
      | (fs1, some e) => (fs1, some e)
      | (fs1, none) => FS.writeto fs1 Uout (outFile Uc header) ow := rfl

lemma wcc_second (fs : FS) (Qout Uout : String) (Qc Uc : NDArray FVal)
    (header : Header) (ow : Bool) (hq : fs.files Qout = none) :
    write_corrected_cubes fs Qout Uout Qc Uc header ow
      = FS.writeto (fs.update Qout (outFile Qc header)) Uout (outFile Uc header) ow := by
  rw [wcc_eq, writeto_free fs Qout _ ow hq]

lemma writeto_conflict (fs : FS) (path : String) (f : FitsFile)
    (h : (fs.files path).isSome = true) :
    FS.writeto fs path f false = (fs, some PipeErr.fileExists) := by
  unfold FS.writeto
  rw [if_pos ⟨h, rfl⟩]

/-- CLAIM C5 property: a blocked write leaves the filesystem untouched (the
general gate, first conjunct); in the U-conflict scenario the run fails with
a file-exists error, the pre-existing U file is unmodified, and the
corrected Q output has already been written — no all-or-nothing guarantee. -/
def overwriteGateHolds (fs : FS) (Qout Uout : String)
    (Qcorr Ucorr : NDArray FVal) (header : Header) (oldU : FitsFile) : Prop :=
  (∀ p f, (fs.files p).isSome = true →
      FS.writeto fs p f false = (fs, some PipeErr.fileExists))
  ∧ (write_corrected_cubes fs Qout Uout Qcorr Ucorr header false).2
      = some PipeErr.fileExists
  ∧ (write_corrected_cubes fs Qout Uout Qcorr Ucorr header false).1.files Uout
      = some oldU
  ∧ ((write_corrected_cubes fs Qout Uout Qcorr Ucorr header false).1.files Qout).isSome
      = true

/-- C5: overwrite gate and non-atomicity of the output pair: without the
overwrite flag, a write to an existing path fails leaving that file as it
was; the Q output is written before the U output, so a conflict on the U
path happens after the corrected Q file is already on disk. -/
theorem write_corrected_cubes_overwrite_gate (fs : FS) (Qout Uout : String)
    (Qcorr Ucorr : NDArray FVal) (header : Header) (oldU : FitsFile)
    (hq : fs.files Qout = none) (hu : fs.files Uout = some oldU)
    (hne : Qout ≠ Uout) :
    overwriteGateHolds fs Qout Uout Qcorr Ucorr header oldU := by
  unfold overwriteGateHolds
  have h2 := wcc_second fs Qout Uout Qcorr Ucorr header false hq
  have hcon : ((fs.update Qout (outFile Qcorr header)).files Uout).isSome = true := by
    rw [update_files_ne fs Qout _ Uout (fun h => hne h.symm), hu]
    rfl
  refine ⟨fun p f h => writeto_conflict fs p f h, ?_, ?_, ?_⟩
  · rw [h2, writeto_conflict _ _ _ hcon]
  · rw [h2, writeto_conflict _ _ _ hcon]
    show (fs.update Qout (outFile Qcorr header)).files Uout = some oldU
    rw [update_files_ne fs Qout _ Uout (fun h => hne h.symm), hu]
  · rw [h2, writeto_conflict _ _ _ hcon]
    show ((fs.update Qout (outFile Qcorr header)).files Qout).isSome = true
    rw [update_files_self]
    rfl

/-- An existing file occupying the U output path. -/
def oldUfile : FitsFile := ⟨cubeUbad, hdrEx⟩

/-- A filesystem where only the U output path is occupied. -/
def fsU : FS := { files := fun p => if p = "Uout.fits" then some oldUfile else none }

/-- Witness for C5: the U output path already exists, overwrite off. -/
theorem write_corrected_cubes_overwrite_gate_witness :
    (fsU.files "Qout.fits" = none ∧ fsU.files "Uout.fits" = some oldUfile
      ∧ "Qout.fits" ≠ "Uout.fits")
    ∧ overwriteGateHolds fsU "Qout.fits" "Uout.fits" cubeQex cubeUex hdrEx oldUfile :=
  ⟨⟨rfl, rfl, (by decide)⟩,
   write_corrected_cubes_overwrite_gate fsU "Qout.fits" "Uout.fits" cubeQex cubeUex hdrEx
     oldUfile rfl rfl (by decide)⟩

/-- CLAIM C10 property: after a successful run of the write step, both
output paths hold files carrying one and the same annotated header; that
header is the header of the caller with exactly the history note appended
(the axis fields are untouched, so the header object of the caller is never
mutated),
and the note contains the fixed correction text. -/
def headerFrameHolds (fs : FS) (Qout Uout : String)
    (Qcorr Ucorr : NDArray FVal) (header : Header) : Prop :=
  ∃ fq fu,
    (write_corrected_cubes fs Qout Uout Qcorr Ucorr header false).1.files Qout = some fq
    ∧ (write_corrected_cubes fs Qout Uout Qcorr Ucorr header false).1.files Uout = some fu
    ∧ fq.fheader = addHistory header histNote
    ∧ fu.fheader = addHistory header histNote
    ∧ (addHistory header histNote).naxis = header.naxis
    ∧ (addHistory header histNote).ctype = header.ctype
    ∧ (addHistory header histNote).history = header.history ++ [histNote]
    ∧ strContains histNote "Corrected for ionospheric Faraday rotation" = true

/-- C10: header frame condition of the write step: the history note is added
to a copy of the header of the caller (the copy extends the original axis
fields and history, nothing of the original is overwritten), both outputs
are written with that same single annotated header, and the note contains
"Corrected for ionospheric Faraday rotation". -/
theorem write_corrected_cubes_header_frame (fs : FS) (Qout Uout : String)
    (Qcorr Ucorr : NDArray FVal) (header : Header)
    (hq : fs.files Qout = none) (hu : fs.files Uout = none) (hne : Qout ≠ Uout) :
    headerFrameHolds fs Qout Uout Qcorr Ucorr header := by
  have h2 := wcc_second fs Qout Uout Qcorr Ucorr header false hq
  have hfree : (fs.update Qout (outFile Qcorr header)).files Uout = none := by
    rw [update_files_ne fs Qout _ Uout (fun h => hne h.symm)]
    exact hu
  have h3 : write_corrected_cubes fs Qout Uout Qcorr Ucorr header false
      = ((fs.update Qout (outFile Qcorr header)).update Uout (outFile Ucorr header), none) := by
    rw [h2, writeto_free _ Uout _ false hfree]
  refine ⟨outFile Qcorr header, outFile Ucorr header, ?_, ?_, rfl, rfl, rfl, rfl, rfl,
    (by decide)⟩
  · rw [h3]
    show ((fs.update Qout _).update Uout _).files Qout = _
    rw [update_files_ne _ Uout _ Qout hne, update_files_self]
  · rw [h3]
    show ((fs.update Qout _).update Uout _).files Uout = _
    rw [update_files_self]

/-- An empty filesystem. -/
def fsEmpty : FS := { files := fun _ => none }

/-- Witness for C10: both output paths free on an empty filesystem. -/
theorem write_corrected_cubes_header_frame_witness :
    (fsEmpty.files "Qout.fits" = none ∧ fsEmpty.files "Uout.fits" = none
      ∧ "Qout.fits" ≠ "Uout.fits")
    ∧ headerFrameHolds fsEmpty "Qout.fits" "Uout.fits" cubeQex cubeUex hdrEx :=
  ⟨⟨rfl, rfl, (by decide)⟩,
   write_corrected_cubes_header_frame fsEmpty "Qout.fits" "Uout.fits" cubeQex cubeUex hdrEx
     rfl rfl (by decide)⟩

/-- The detection test header of the spec: labels RA, DEC, FREQ on axes 1..3. -/
def hdrFreqEx : Header :=
  { naxis := 3
  , ctype := fun i =>
      if i = 1 then some "RA---SIN"
      else if i = 2 then some "DEC--SIN"
      else if i = 3 then some "FREQ" else none
  , history := [] }

/-- Witness for C3 at the test header of the spec (RA, DEC, FREQ). -/
theorem find_freq_axis_last_match_witness : freqAxisSpecHolds hdrFreqEx :=
  find_freq_axis_last_match hdrFreqEx

lemma parseRow_some (r : PredRow) (f re im : ℚ)
    (h : parseRow r = some (f, re, im)) : r = [some f, some re, some im] := by
  unfold parseRow at h
  split at h
  · next a b c =>
      injection h with h'
      rw [Prod.mk.injEq, Prod.mk.injEq] at h'
      obtain ⟨h1, h2, h3⟩ := h'
      rw [h1, h2, h3]
  · exact absurd h (by simp)

lemma parseRows_err (rows : List PredRow) (r : PredRow) (hr : r ∈ rows)
    (hbad : parseRow r = none) :
    ∃ e, parsePredictionRows rows = Except.error e := by
  induction rows with
  | nil => cases hr
  | cons a as ih =>
      rcases List.mem_cons.mp hr with rfl | hmem
      · exact ⟨PipeErr.parseError, by simp [parsePredictionRows, hbad]⟩
      · obtain ⟨e, he⟩ := ih hmem
        cases hpa : parseRow a with
        | none => exact ⟨PipeErr.parseError, by simp [parsePredictionRows, hpa]⟩
        | some v => exact ⟨e, by simp [parsePredictionRows, hpa, he]⟩

lemma parseRows_ok (rows : List PredRow) :
    ∀ t, parsePredictionRows rows = Except.ok t →
      t.length = rows.length ∧ ∀ i (h : i < rows.length),
        parseRow (rows.get ⟨i, h⟩) = some (t.getD i (0, 0, 0)) := by
  induction rows with
  | nil =>
      intro t ht
      simp only [parsePredictionRows, Except.ok.injEq] at ht
      subst ht
      exact ⟨rfl, fun i h => absurd h (by simp)⟩
  | cons a as ih =>
      intro t ht
      cases hpa : parseRow a with
      | none => simp [parsePredictionRows, hpa] at ht
      | some v =>
          cases hps : parsePredictionRows as with
          | error e => simp [parsePredictionRows, hpa, hps] at ht
          | ok tl =>
              simp only [parsePredictionRows, hpa, hps, Except.ok.injEq] at ht
              subst ht
              obtain ⟨hlen, hpt⟩ := ih tl hps
              refine ⟨by simp [hlen], ?_⟩
              intro i h
              cases i with
              | zero => simpa using hpa
              | succ n =>
                  simp only [List.length_cons, Nat.succ_lt_succ_iff] at h
                  simpa using hpt n h

/-- CLAIM C8 property: the loader fails on an unreadable source, on an empty
source, and on any source with a row that is not exactly three numeric
fields; on success it returns a frequency sequence and a parallel complex
sequence of equal length with `theta[i] = real[i] + i*imag[i]`. -/
def predictionLoaderSpec (source : Option (List PredRow)) : Prop :=
  (source = none → ∃ e, read_prediction source = Except.error e)
  ∧ (source = some [] → ∃ e, read_prediction source = Except.error e)
  ∧ (∀ rows r, source = some rows → r ∈ rows →
      (∀ f re im, r ≠ [some f, some re, some im]) →
      ∃ e, read_prediction source = Except.error e)
  ∧ (∀ freqs theta, read_prediction source = Except.ok (freqs, theta) →
      freqs.length = theta.length
      ∧ ∃ rows, source = some rows ∧ theta.length = rows.length
        ∧ ∀ i (h : i < rows.length), ∃ f re im,
            rows.get ⟨i, h⟩ = [some f, some re, some im]
            ∧ freqs.getD i 0 = f
            ∧ theta.getD i cnan = (FVal.fin re, FVal.fin im))

/-- C8: prediction loader failure and success conditions, as in the spec
contract for `load_prediction`. -/
theorem read_prediction_spec (source : Option (List PredRow)) :
    predictionLoaderSpec source := by
  refine ⟨?_, ?_, ?_, ?_⟩
  · intro h
    subst h
    exact ⟨PipeErr.parseError, rfl⟩
  · intro h
    subst h
    exact ⟨PipeErr.parseError, rfl⟩
  · intro rows r hsrc hmem hbad
    subst hsrc
    have hnone : parseRow r = none := by
      cases hpr : parseRow r with
      | none => rfl
      | some v =>
          exact absurd (parseRow_some r v.1 v.2.1 v.2.2 (by rw [hpr])) (hbad v.1 v.2.1 v.2.2)
    obtain ⟨e, he⟩ := parseRows_err rows r hmem hnone
    have hemp : rows.isEmpty = false := by
      cases rows with
      | nil => cases hmem
      | cons a as => rfl
    exact ⟨e, by simp [read_prediction, parsePredictionTable, hemp, he]⟩
  · intro freqs theta hok
    cases hsrc : source with
    | none =>
        rw [hsrc] at hok
        simp [read_prediction, parsePredictionTable] at hok
    | some rows =>
        rw [hsrc] at hok
        by_cases hemp : rows.isEmpty = true
        · simp [read_prediction, parsePredictionTable, hemp] at hok
        · rw [Bool.not_eq_true] at hemp
          cases hpr : parsePredictionRows rows with
          | error e =>
              simp [read_prediction, parsePredictionTable, hemp, hpr] at hok
          | ok t =>
              simp only [read_prediction, parsePredictionTable, hemp, Bool.false_eq_true,
                if_false, hpr, Except.ok.injEq, Prod.mk.injEq] at hok
              obtain ⟨hf, hth⟩ := hok
              obtain ⟨hlen, hpt⟩ := parseRows_ok rows t hpr
              have hthlen : theta.length = rows.length := by
                rw [← hth, List.length_map, hlen]
              refine ⟨by rw [← hf, ← hth, List.length_map, List.length_map], rows, rfl,
                hthlen, ?_⟩
              intro i h
              have hit : i < t.length := by omega
              have hrow := hpt i h
              set v := t.getD i (0, 0, 0) with hv
              refine ⟨v.1, v.2.1, v.2.2, parseRow_some _ _ _ _ hrow, ?_, ?_⟩
              · rw [← hf, List.getD_eq_getElem _ _ (by rw [List.length_map]; omega),
                  List.getElem_map, ← List.getD_eq_getElem t (0, 0, 0) hit]
              · rw [← hth, List.getD_eq_getElem _ _ (by rw [List.length_map]; omega),
                  List.getElem_map, ← List.getD_eq_getElem t (0, 0, 0) hit]

/-- Witness for C8 at a concrete well-formed source. -/
theorem read_prediction_spec_witness : predictionLoaderSpec (some predEx) :=
  read_prediction_spec (some predEx)
